import Mathlib

/-!
Shallow embedding of `src/aoc_utils/grid.py`: a generic 2-D grid toolkit
(tiles, neighbour enumeration, flood-fill regions, perimeter computation and
directional geometry).  Python list indexing — including the negative-index
wrap-around and the `IndexError` fault — is modelled by `Option`; Python's
unbounded integers are modelled by `Int`.  Fallible operations return
`Option`, with `none` standing for a raised `IndexError`.
-/

namespace AocGrid

/-- `class Tile[T](NamedTuple): i: int; j: int; value: T`.  Equality is on
the full triple, exactly as for the Python named tuple. -/
structure Tile (T : Type) where
  i : Int
  j : Int
  value : T
deriving DecidableEq

/-- `class Region[T](NamedTuple): tiles: list[Tile[T]]`. -/
structure Region (T : Type) where
  tiles : List (Tile T)
deriving DecidableEq

/-- `type Grid[T] = list[list[T]]`. -/
abbrev Grid (T : Type) := List (List T)

/-- Python list indexing `l[k]`: a negative index addresses from the end of
the list; an index out of range raises `IndexError`, modelled as `none`. -/
def pyIdx {α : Type} (l : List α) (k : Int) : Option α :=
  if k < 0 then
    if 0 ≤ k + l.length then l.get? (k + l.length).toNat else none
  else
    l.get? k.toNat

/-- The double indexing `grid[i][j]` used throughout the source. -/
def pyIdx2 {T : Type} (grid : Grid T) (i j : Int) : Option T :=
  (pyIdx grid i).bind (fun row => pyIdx row j)

/-- `UP: Final[Direction] = (-1, 0)`. -/
def UP : Int × Int := (-1, 0)

/-- `DOWN: Final[Direction] = (1, 0)`. -/
def DOWN : Int × Int := (1, 0)

/-- `LEFT: Final[Direction] = (0, -1)`. -/
def LEFT : Int × Int := (0, -1)

/-- `RIGHT: Final[Direction] = (0, 1)`. -/
def RIGHT : Int × Int := (0, 1)

/-- The fixed direction list `[UP, RIGHT, DOWN, LEFT]` iterated by
`get_neighbours` and `get_perimeter`. -/
def directions : List (Int × Int) := [UP, RIGHT, DOWN, LEFT]

/-- `def shape(grid): return len(grid), len(grid[0])` — faults (`none`) on a
zero-row grid, where `grid[0]` raises `IndexError`. -/
def shape {T : Type} (grid : Grid T) : Option (Int × Int) :=
  (pyIdx grid 0).map (fun row => ((grid.length : Int), (row.length : Int)))

/-- `def match_always(_a, _b): return True`. -/
def match_always {T : Type} (_a _b : Tile T) : Bool :=
  true

/-- `def match_value(a, b): return a.value == b.value`. -/
def match_value {T : Type} [DecidableEq T] (a b : Tile T) : Bool :=
  decide (a.value = b.value)

/-- The column count `len(grid[0])` that `shape` reports for a non-empty
grid (0 for an empty grid; `shape` itself faults there). -/
def cols0 {T : Type} (grid : Grid T) : Nat :=
  (grid.head?.map List.length).getD 0

/-- The `for di, dj in [UP, RIGHT, DOWN, LEFT]` loop body of
`get_neighbours`, recursing over the remaining direction list.  A candidate
outside `[0, row_count) × [0, col_count)` is skipped; otherwise the grid is
indexed (a failing access faults the whole call) and the resulting neighbour
tile is kept when the predicate accepts it, in loop order. -/
def neighboursAux {T : Type} (tile : Tile T) (grid : Grid T)
    (predicate : Tile T → Tile T → Bool) (rowCount colCount : Int) :
    List (Int × Int) → Option (List (Tile T))
  | [] => some []
  | d :: ds =>
    let ni := tile.i + d.1
    let nj := tile.j + d.2
    if ni < 0 ∨ rowCount ≤ ni ∨ nj < 0 ∨ colCount ≤ nj then
      neighboursAux tile grid predicate rowCount colCount ds
    else
      match pyIdx2 grid ni nj with
      | none => none
      | some v =>
        match neighboursAux tile grid predicate rowCount colCount ds with
        | none => none
        | some rest =>
          some (if predicate tile ⟨ni, nj, v⟩ then ⟨ni, nj, v⟩ :: rest else rest)

/-- `get_neighbours(tile, grid, predicate)` — `shape` is queried first, so the
call faults on an empty grid. -/
def get_neighbours {T : Type} (tile : Tile T) (grid : Grid T)
    (predicate : Tile T → Tile T → Bool) : Option (List (Tile T)) :=
  (shape grid).bind (fun rc => neighboursAux tile grid predicate rc.1 rc.2 directions)

/-- Every tile the adjacency engine can produce: in-bounds coordinates (the
column bound taken from row 0, as `shape` reports it) carrying the value
stored in the grid at that coordinate. -/
def allGridTiles {T : Type} (grid : Grid T) : List (Tile T) :=
  (List.range grid.length).flatMap (fun (i : Nat) =>
    (List.range (cols0 grid)).filterMap (fun (j : Nat) =>
      (pyIdx2 grid (i : Int) (j : Int)).map (fun v => ⟨(i : Int), (j : Int), v⟩)))

/-- The `while stack:` loop of `get_region`.  The stack top is the list head
(`deque.pop` pops from the right and `extend` appends there, so a pushed
batch lands reversed on the head); the Python `set` of discovered tiles is
modelled by the list of discovered tiles in insertion order — the source only
tests membership and enumerates it at the end, and the enumeration order of a
Python set is implementation-defined anyway.  `fuel` is an embedding
artifact: the source loop has no counter, and `floodFuel` below is proved
large enough for the loop to drain its stack before the fuel runs out. -/
def floodLoop {T : Type} [DecidableEq T] (grid : Grid T)
    (predicate : Tile T → Tile T → Bool) :
    Nat → List (Tile T) → List (Tile T) → Option (List (Tile T))
  | _, [], tiles => some tiles
  | 0, _ :: _, _ => none
  | fuel + 1, current :: stack, tiles =>
    if current ∈ tiles then
      floodLoop grid predicate fuel stack tiles
    else
      match get_neighbours current grid predicate with
      | none => none
      | some ns =>
        floodLoop grid predicate fuel
          ((ns.filter (fun n => n ∉ current :: tiles)).reverse ++ stack)
          (current :: tiles)

/-- Fuel sufficient for the flood-fill loop started from `tile`: every tile
ever pushed besides the seed comes from `allGridTiles`, each discovery pushes
at most four tiles, and each iteration pops one. -/
def floodFuel {T : Type} (tile : Tile T) (grid : Grid T) : Nat :=
  5 * (tile :: allGridTiles grid).length + 2

/-- `get_region(tile, grid, predicate)`: iterative flood fill from `tile`. -/
def get_region {T : Type} [DecidableEq T] (tile : Tile T) (grid : Grid T)
    (predicate : Tile T → Tile T → Bool) : Option (Region T) :=
  (floodLoop grid predicate (floodFuel tile grid) [tile] []).map Region.mk

/-- The row-major coordinate enumeration
`for i in range(len(grid)): for j in range(len(grid[0]))` of
`get_all_regions` (and `get_tiles`).  On an empty grid the outer loop is
empty, so `len(grid[0])` is never evaluated and the list is `[]`. -/
def coordList {T : Type} (grid : Grid T) : List (Int × Int) :=
  (List.range grid.length).flatMap (fun (i : Nat) =>
    (List.range (cols0 grid)).map (fun (j : Nat) => ((i : Int), (j : Int))))

/-- The loop of `get_all_regions` over the remaining coordinates, carrying
the accumulated region list and the visited set (modelled, membership-wise,
by the concatenation of the discovered regions' tile lists, which is exactly
what `visited_tiles.update(region.tiles)` accumulates). -/
def allRegionsLoop {T : Type} [DecidableEq T] (grid : Grid T)
    (predicate : Tile T → Tile T → Bool) :
    List (Int × Int) → List (Region T) → List (Tile T) → Option (List (Region T))
  | [], regions, _ => some regions
  | c :: rest, regions, visited =>
    match pyIdx2 grid c.1 c.2 with
    | none => none
    | some v =>
      if (⟨c.1, c.2, v⟩ : Tile T) ∈ visited then
        allRegionsLoop grid predicate rest regions visited
      else
        match get_region ⟨c.1, c.2, v⟩ grid predicate with
        | none => none
        | some region =>
          allRegionsLoop grid predicate rest (regions ++ [region])
            (visited ++ region.tiles)

/-- `get_all_regions(grid, predicate)`. -/
def get_all_regions {T : Type} [DecidableEq T] (grid : Grid T)
    (predicate : Tile T → Tile T → Bool) : Option (List (Region T)) :=
  allRegionsLoop grid predicate (coordList grid) [] []

/-- `get_perimeter(region)`: build the coordinate set of the region (the
Python set is modelled by the coordinate list, which is membership-equal),
then count, over every tile and every direction, the neighbour coordinates
absent from that set. -/
def get_perimeter {T : Type} (region : Region T) : Nat :=
  let coordinates := region.tiles.map (fun t => (t.i, t.j))
  region.tiles.foldl (fun peri t =>
    directions.foldl (fun peri d =>
      if (t.i + d.1, t.j + d.2) ∈ coordinates then peri else peri + 1) peri) 0

/-- `def turn_right(direction): i, j = direction; return (j, -i)`. -/
def turn_right (direction : Int × Int) : Int × Int :=
  (direction.2, -direction.1)

/-- `def turn_left(direction): i, j = direction; return (-j, i)`. -/
def turn_left (direction : Int × Int) : Int × Int :=
  (-direction.2, direction.1)

/-- `can_see(viewpoint, target, direction)`: the exact integer collinearity
test of the source, with its two early-return guards. -/
def can_see (viewpoint target : Int × Int) (direction : Int × Int) : Bool :=
  let vertical_delta := target.1 - viewpoint.1
  if direction.1 = 0 ∧ vertical_delta ≠ 0 then
    false
  else
    let horizontal_delta := target.2 - viewpoint.2
    if direction.2 = 0 ∧ horizontal_delta ≠ 0 then
      false
    else
      decide (vertical_delta * direction.2 = horizontal_delta * direction.1)

/-- The documented grid invariant: every row has the length of row 0. -/
def Rectangular {T : Type} (grid : Grid T) : Prop :=
  ∀ row ∈ grid, row.length = cols0 grid

instance {T : Type} (grid : Grid T) : Decidable (Rectangular grid) :=
  List.decidableBAll _ grid

/-- A tile that genuinely belongs to the grid: in-bounds coordinates (with
the column bound `shape` reports) and the value stored there. -/
def GridTile {T : Type} (grid : Grid T) (t : Tile T) : Prop :=
  0 ≤ t.i ∧ t.i < (grid.length : Int) ∧ 0 ≤ t.j ∧ t.j < (cols0 grid : Int) ∧
    pyIdx2 grid t.i t.j = some t.value

instance {T : Type} [DecidableEq T] (grid : Grid T) (t : Tile T) :
    Decidable (GridTile grid t) := by
  unfold GridTile
  infer_instance

/-- Reachability from `seed` by chains of steps in which each step goes from
a tile to one of that tile's `get_neighbours` results. -/
inductive Reaches {T : Type} (grid : Grid T) (predicate : Tile T → Tile T → Bool)
    (seed : Tile T) : Tile T → Prop
  | refl : Reaches grid predicate seed seed
  | step {t n : Tile T} {ns : List (Tile T)} :
      Reaches grid predicate seed t →
      get_neighbours t grid predicate = some ns →
      n ∈ ns →
      Reaches grid predicate seed n

/-- Proof-side reformulation of one iteration of the `get_neighbours` loop:
the neighbour tile the direction `d` contributes, if any. -/
def neighbourStep {T : Type} (tile : Tile T) (grid : Grid T)
    (predicate : Tile T → Tile T → Bool) (rowCount colCount : Int)
    (d : Int × Int) : Option (Tile T) :=
  if tile.i + d.1 < 0 ∨ rowCount ≤ tile.i + d.1 ∨
      tile.j + d.2 < 0 ∨ colCount ≤ tile.j + d.2 then
    none
  else
    match pyIdx2 grid (tile.i + d.1) (tile.j + d.2) with
    | none => none
    | some v =>
      if predicate tile ⟨tile.i + d.1, tile.j + d.2, v⟩ then
        some ⟨tile.i + d.1, tile.j + d.2, v⟩
      else none

/-- The candidate a single direction contributes to `boundedCandidates`:
the adjacent tile in direction `d` when it is in bounds, with its grid
value, and independent of any predicate. -/
def boundedStep {T : Type} (tile : Tile T) (grid : Grid T) (d : Int × Int) :
    Option (Tile T) :=
  if tile.i + d.1 < 0 ∨ (grid.length : Int) ≤ tile.i + d.1 ∨
      tile.j + d.2 < 0 ∨ (cols0 grid : Int) ≤ tile.j + d.2 then
    none
  else
    (pyIdx2 grid (tile.i + d.1) (tile.j + d.2)).map
      (fun v => ⟨tile.i + d.1, tile.j + d.2, v⟩)

/-- The in-bounds neighbour candidates of a tile, in the fixed direction
order up, right, down, left, each carrying the grid value at its
coordinates (the order the spec says `get_neighbours` preserves). -/
def boundedCandidates {T : Type} (tile : Tile T) (grid : Grid T) : List (Tile T) :=
  directions.filterMap (boundedStep tile grid)

/-- The perimeter computation lifted to a bare coordinate list: the shape
`get_perimeter` factors through, used to state that tile values never
influence the result. -/
def perimCoords (cs : List (Int × Int)) : Nat :=
  cs.foldl (fun peri c =>
    directions.foldl (fun peri d =>
      if (c.1 + d.1, c.2 + d.2) ∈ cs then peri else peri + 1) peri) 0

/-- The number of perimeter units a single coordinate contributes: its four
axis-aligned neighbour coordinates absent from the coordinate set, written
out in the fixed up, right, down, left order. -/
def cnt (cs : List (Int × Int)) (c : Int × Int) : Nat :=
  (if (c.1 + -1, c.2 + 0) ∈ cs then 0 else 1) +
    (if (c.1 + 0, c.2 + 1) ∈ cs then 0 else 1) +
    (if (c.1 + 1, c.2 + 0) ∈ cs then 0 else 1) +
    (if (c.1 + 0, c.2 + -1) ∈ cs then 0 else 1)

/-- The grid built from the three lines `"AAA"`, `"ABA"`, `"AAA"` (cells are
characters, as `create_grid` with the identity transform produces). -/
def gAAA : Grid Char :=
  [['A', 'A', 'A'], ['A', 'B', 'A'], ['A', 'A', 'A']]

/-- The first region `get_all_regions gAAA match_value` returns: the eight
`'A'` tiles, in the order the embedded flood fill discovers them. -/
def regionA : Region Char :=
  ⟨[⟨0, 1, 'A'⟩, ⟨0, 2, 'A'⟩, ⟨1, 2, 'A'⟩, ⟨2, 2, 'A'⟩, ⟨2, 1, 'A'⟩,
    ⟨2, 0, 'A'⟩, ⟨1, 0, 'A'⟩, ⟨0, 0, 'A'⟩]⟩

/-- The second region `get_all_regions gAAA match_value` returns: the single
`'B'` tile. -/
def regionB : Region Char :=
  ⟨[⟨1, 1, 'B'⟩]⟩

/-- A 1×3 grid used to probe `get_all_regions` under a predicate that is
not symmetric. -/
def gBad : Grid Nat :=
  [[0, 1, 2]]

/-- A match predicate that is not symmetric: a step is allowed exactly when
the tile stepped onto holds the value 1. -/
def predBad : Tile Nat → Tile Nat → Bool :=
  fun _ b => decide (b.value = 1)

section Lemmas

variable {T : Type}

theorem pyIdx_of_nonneg {α : Type} (l : List α) (k : Int) (h : 0 ≤ k) :
    pyIdx l k = l.get? k.toNat := by
  unfold pyIdx
  rw [if_neg (by omega)]

theorem pyIdx_natCast {α : Type} (l : List α) (n : Nat) :
    pyIdx l (n : Int) = l.get? n := by
  rw [pyIdx_of_nonneg l _ (by positivity), Int.toNat_natCast]

theorem shape_of_ne_nil (grid : Grid T) (h : grid ≠ []) :
    shape grid = some ((grid.length : Int), (cols0 grid : Int)) := by
  cases grid with
  | nil => exact absurd rfl h
  | cons row rest => simp [shape, cols0, pyIdx]

theorem shape_nil : shape ([] : Grid T) = none := by
  simp [shape, pyIdx]

theorem pyIdx2_rect (grid : Grid T) (hr : Rectangular grid) (i j : Int)
    (hi0 : 0 ≤ i) (hi : i < (grid.length : Int)) (hj0 : 0 ≤ j)
    (hj : j < (cols0 grid : Int)) : ∃ v, pyIdx2 grid i j = some v := by
  have hi' : i.toNat < grid.length := by omega
  obtain ⟨row, hrow⟩ : ∃ row, grid.get? i.toNat = some row :=
    ⟨_, List.get?_eq_get hi'⟩
  have hmem : row ∈ grid := by
    have := List.get?_mem hrow
    exact this
  have hlen : row.length = cols0 grid := hr row hmem
  have hj' : j.toNat < row.length := by omega
  obtain ⟨v, hv⟩ : ∃ v, row.get? j.toNat = some v := ⟨_, List.get?_eq_get hj'⟩
  refine ⟨v, ?_⟩
  unfold pyIdx2
  rw [pyIdx_of_nonneg _ _ hi0, hrow]
  simpa [pyIdx_of_nonneg _ _ hj0] using hv

theorem neighboursAux_char (tile : Tile T) (grid : Grid T)
    (predicate : Tile T → Tile T → Bool) (rowCount colCount : Int)
    (ds : List (Int × Int)) (ns : List (Tile T))
    (h : neighboursAux tile grid predicate rowCount colCount ds = some ns) :
    ns = ds.filterMap (neighbourStep tile grid predicate rowCount colCount) := by
  induction ds generalizing ns with
  | nil =>
    simp only [neighboursAux, Option.some.injEq] at h
    simp [← h]
  | cons d ds ih =>
    rw [List.filterMap_cons]
    simp only [neighboursAux] at h
    by_cases hout : tile.i + d.1 < 0 ∨ rowCount ≤ tile.i + d.1 ∨
        tile.j + d.2 < 0 ∨ colCount ≤ tile.j + d.2
    · rw [if_pos hout] at h
      have hstep : neighbourStep tile grid predicate rowCount colCount d = none := by
        unfold neighbourStep
        rw [if_pos hout]
      rw [hstep]
      exact ih ns h
    · rw [if_neg hout] at h
      cases hv : pyIdx2 grid (tile.i + d.1) (tile.j + d.2) with
      | none =>
        rw [hv] at h
        exact absurd h (by simp)
      | some v =>
        rw [hv] at h
        cases hrest : neighboursAux tile grid predicate rowCount colCount ds with
        | none =>
          rw [hrest] at h
          exact absurd h (by simp)
        | some rest =>
          rw [hrest] at h
          simp only [Option.some.injEq] at h
          have hstep : neighbourStep tile grid predicate rowCount colCount d =
              if predicate tile ⟨tile.i + d.1, tile.j + d.2, v⟩ then
                some ⟨tile.i + d.1, tile.j + d.2, v⟩
              else none := by
            unfold neighbourStep
            rw [if_neg hout, hv]
          rw [hstep, ← ih rest hrest, ← h]
          by_cases hp : predicate tile ⟨tile.i + d.1, tile.j + d.2, v⟩ = true
          · simp only [if_pos hp]
          · simp only [if_neg hp]

theorem neighboursAux_total (tile : Tile T) (grid : Grid T)
    (predicate : Tile T → Tile T → Bool) (hr : Rectangular grid)
    (ds : List (Int × Int)) :
    ∃ ns, neighboursAux tile grid predicate (grid.length : Int)
      (cols0 grid : Int) ds = some ns := by
  induction ds with
  | nil => exact ⟨[], rfl⟩
  | cons d ds ih =>
    obtain ⟨ns, hns⟩ := ih
    simp only [neighboursAux]
    by_cases hout : tile.i + d.1 < 0 ∨ (grid.length : Int) ≤ tile.i + d.1 ∨
        tile.j + d.2 < 0 ∨ (cols0 grid : Int) ≤ tile.j + d.2
    · rw [if_pos hout]
      exact ⟨ns, hns⟩
    · rw [if_neg hout]
      push_neg at hout
      obtain ⟨v, hv⟩ := pyIdx2_rect grid hr (tile.i + d.1) (tile.j + d.2)
        (by omega) (by omega) (by omega) (by omega)
      rw [hv, hns]
      exact ⟨_, rfl⟩

theorem get_neighbours_total (tile : Tile T) (grid : Grid T)
    (predicate : Tile T → Tile T → Bool) (hne : grid ≠ [])
    (hr : Rectangular grid) :
    ∃ ns, get_neighbours tile grid predicate = some ns := by
  obtain ⟨ns, hns⟩ := neighboursAux_total tile grid predicate hr directions
  refine ⟨ns, ?_⟩
  rw [get_neighbours, shape_of_ne_nil grid hne]
  exact hns

theorem get_neighbours_char (tile : Tile T) (grid : Grid T)
    (predicate : Tile T → Tile T → Bool) (ns : List (Tile T))
    (h : get_neighbours tile grid predicate = some ns) :
    grid ≠ [] ∧ ns = directions.filterMap
      (neighbourStep tile grid predicate (grid.length : Int) (cols0 grid : Int)) := by
  have hne : grid ≠ [] := by
    intro hnil
    rw [hnil] at h
    simp [get_neighbours, shape_nil] at h
  refine ⟨hne, ?_⟩
  rw [get_neighbours, shape_of_ne_nil grid hne] at h
  exact neighboursAux_char tile grid predicate _ _ directions ns h

theorem neighbourStep_eq_some_iff (tile : Tile T) (grid : Grid T)
    (predicate : Tile T → Tile T → Bool) (d : Int × Int) (n : Tile T) :
    neighbourStep tile grid predicate (grid.length : Int) (cols0 grid : Int) d
        = some n ↔
      n.i = tile.i + d.1 ∧ n.j = tile.j + d.2 ∧ GridTile grid n ∧
        predicate tile n = true := by
  constructor
  · intro h
    unfold neighbourStep at h
    split at h
    · exact absurd h (by simp)
    · rename_i hout
      push_neg at hout
      split at h
      · exact absurd h (by simp)
      · rename_i v hv
        split at h
        · rename_i hp
          simp only [Option.some.injEq] at h
          subst h
          exact ⟨rfl, rfl,
            ⟨show (0 : Int) ≤ tile.i + d.1 by omega,
             show tile.i + d.1 < (grid.length : Int) by omega,
             show (0 : Int) ≤ tile.j + d.2 by omega,
             show tile.j + d.2 < (cols0 grid : Int) by omega, hv⟩, hp⟩
        · exact absurd h (by simp)
  · rintro ⟨hni, hnj, ⟨hb1, hb2, hb3, hb4, hval⟩, hp⟩
    unfold neighbourStep
    rw [← hni, ← hnj, if_neg (by omega), hval]
    show (if predicate tile ⟨n.i, n.j, n.value⟩ = true then
        some (⟨n.i, n.j, n.value⟩ : Tile T) else none) = some n
    have hn : (⟨n.i, n.j, n.value⟩ : Tile T) = n := rfl
    rw [hn, if_pos hp]

theorem get_neighbours_mem_iff (tile : Tile T) (grid : Grid T)
    (predicate : Tile T → Tile T → Bool) (ns : List (Tile T))
    (h : get_neighbours tile grid predicate = some ns) (n : Tile T) :
    n ∈ ns ↔ ∃ d ∈ directions, n.i = tile.i + d.1 ∧ n.j = tile.j + d.2 ∧
      GridTile grid n ∧ predicate tile n = true := by
  rw [(get_neighbours_char tile grid predicate ns h).2, List.mem_filterMap]
  constructor
  · rintro ⟨d, hd, hstep⟩
    exact ⟨d, hd, (neighbourStep_eq_some_iff tile grid predicate d n).1 hstep⟩
  · rintro ⟨d, hd, hprops⟩
    exact ⟨d, hd, (neighbourStep_eq_some_iff tile grid predicate d n).2 hprops⟩

theorem get_neighbours_gridTile (tile : Tile T) (grid : Grid T)
    (predicate : Tile T → Tile T → Bool) (ns : List (Tile T))
    (h : get_neighbours tile grid predicate = some ns) (n : Tile T)
    (hn : n ∈ ns) : GridTile grid n := by
  obtain ⟨d, hd, h1, h2, hgt, hp⟩ :=
    (get_neighbours_mem_iff tile grid predicate ns h n).1 hn
  exact hgt

theorem get_neighbours_length_le (tile : Tile T) (grid : Grid T)
    (predicate : Tile T → Tile T → Bool) (ns : List (Tile T))
    (h : get_neighbours tile grid predicate = some ns) : ns.length ≤ 4 := by
  rw [(get_neighbours_char tile grid predicate ns h).2]
  calc (directions.filterMap _).length ≤ directions.length :=
        List.length_filterMap_le _ _
    _ = 4 := rfl

theorem neighbourStep_eq_boundedStep (tile : Tile T) (grid : Grid T)
    (predicate : Tile T → Tile T → Bool) (d : Int × Int) :
    neighbourStep tile grid predicate (grid.length : Int) (cols0 grid : Int) d =
      (boundedStep tile grid d).bind
        (fun n => if predicate tile n then some n else none) := by
  unfold neighbourStep boundedStep
  by_cases hout : tile.i + d.1 < 0 ∨ (grid.length : Int) ≤ tile.i + d.1 ∨
      tile.j + d.2 < 0 ∨ (cols0 grid : Int) ≤ tile.j + d.2
  · rw [if_pos hout, if_pos hout]
    rfl
  · rw [if_neg hout, if_neg hout]
    cases pyIdx2 grid (tile.i + d.1) (tile.j + d.2) with
    | none => rfl
    | some v => rfl

theorem get_neighbours_order (tile : Tile T) (grid : Grid T)
    (predicate : Tile T → Tile T → Bool) (ns : List (Tile T))
    (h : get_neighbours tile grid predicate = some ns) :
    ns = (boundedCandidates tile grid).filter (fun n => predicate tile n) := by
  rw [(get_neighbours_char tile grid predicate ns h).2, boundedCandidates]
  induction directions with
  | nil => rfl
  | cons d ds ih =>
    rw [List.filterMap_cons, List.filterMap_cons,
      neighbourStep_eq_boundedStep tile grid predicate d]
    cases hb : boundedStep tile grid d with
    | none =>
      simpa using ih
    | some n =>
      by_cases hp : predicate tile n = true
      · simp [hp, ih]
      · simp [hp, ih]

theorem mem_allGridTiles_of_gridTile (grid : Grid T) (n : Tile T)
    (h : GridTile grid n) : n ∈ allGridTiles grid := by
  obtain ⟨h1, h2, h3, h4, h5⟩ := h
  unfold allGridTiles
  rw [List.mem_flatMap]
  refine ⟨n.i.toNat, ?_, ?_⟩
  · rw [List.mem_range]
    omega
  rw [List.mem_filterMap]
  refine ⟨n.j.toNat, ?_, ?_⟩
  · rw [List.mem_range]
    omega
  rw [Int.toNat_of_nonneg h1, Int.toNat_of_nonneg h3, h5]
  rfl

theorem length_filter_le_of_imp {α : Type} (l : List α) (p q : α → Bool)
    (h : ∀ x, q x = true → p x = true) :
    (l.filter q).length ≤ (l.filter p).length := by
  induction l with
  | nil => exact Nat.le_refl _
  | cons x l ih =>
    rw [List.filter_cons, List.filter_cons]
    by_cases hq : q x = true
    · rw [if_pos hq, if_pos (h x hq)]
      simpa using ih
    · rw [if_neg hq]
      by_cases hp : p x = true
      · rw [if_pos hp]
        exact Nat.le_succ_of_le ih
      · rw [if_neg hp]
        exact ih

theorem length_filter_lt_of_mem {α : Type} (l : List α) (p q : α → Bool)
    (h : ∀ x, q x = true → p x = true) (a : α) (ha : a ∈ l)
    (hpa : p a = true) (hqa : q a = false) :
    (l.filter q).length < (l.filter p).length := by
  induction l with
  | nil => exact absurd ha (List.not_mem_nil a)
  | cons x l ih =>
    rw [List.filter_cons, List.filter_cons]
    rcases List.mem_cons.1 ha with hx | hmem
    · subst hx
      rw [if_neg (by rw [hqa]; simp), if_pos hpa]
      exact Nat.lt_succ_of_le (length_filter_le_of_imp l p q h)
    · by_cases hq : q x = true
      · rw [if_pos hq, if_pos (h x hq)]
        simpa using ih hmem
      · rw [if_neg hq]
        by_cases hp : p x = true
        · rw [if_pos hp]
          exact Nat.lt_succ_of_lt (ih hmem)
        · rw [if_neg hp]
          exact ih hmem

theorem floodLoop_sound [DecidableEq T] (grid : Grid T)
    (predicate : Tile T → Tile T → Bool) (seed : Tile T) :
    ∀ (fuel : Nat) (stack tiles res : List (Tile T)),
    floodLoop grid predicate fuel stack tiles = some res →
    (∀ t ∈ tiles, Reaches grid predicate seed t) →
    (∀ t ∈ stack, Reaches grid predicate seed t) →
    (∀ t ∈ tiles, ∃ ns, get_neighbours t grid predicate = some ns ∧
        ∀ n ∈ ns, n ∈ tiles ∨ n ∈ stack) →
    (seed ∈ tiles ∨ seed ∈ stack) →
    tiles.Nodup →
    (∀ t ∈ tiles, t ∈ res) ∧ res.Nodup ∧
      (∀ t ∈ res, Reaches grid predicate seed t) ∧
      (∀ t ∈ res, ∃ ns, get_neighbours t grid predicate = some ns ∧
        ∀ n ∈ ns, n ∈ res) ∧
      seed ∈ res := by
  intro fuel
  induction fuel with
  | zero =>
    intro stack tiles res h h1 h2 h3 h4 h5
    cases stack with
    | nil =>
      simp only [floodLoop, Option.some.injEq] at h
      subst h
      refine ⟨fun t ht => ht, h5, h1, ?_, ?_⟩
      · intro t ht
        obtain ⟨ns, hns, hcl⟩ := h3 t ht
        exact ⟨ns, hns, fun n hn => (hcl n hn).resolve_right
          (fun hc => absurd hc (List.not_mem_nil n))⟩
      · exact h4.resolve_right (fun hc => absurd hc (List.not_mem_nil seed))
    | cons current stack' =>
      exact absurd h (by simp [floodLoop])
  | succ fuel ih =>
    intro stack tiles res h h1 h2 h3 h4 h5
    cases stack with
    | nil =>
      simp only [floodLoop, Option.some.injEq] at h
      subst h
      refine ⟨fun t ht => ht, h5, h1, ?_, ?_⟩
      · intro t ht
        obtain ⟨ns, hns, hcl⟩ := h3 t ht
        exact ⟨ns, hns, fun n hn => (hcl n hn).resolve_right
          (fun hc => absurd hc (List.not_mem_nil n))⟩
      · exact h4.resolve_right (fun hc => absurd hc (List.not_mem_nil seed))
    | cons current stack' =>
      simp only [floodLoop] at h
      by_cases hc : current ∈ tiles
      · rw [if_pos hc] at h
        refine ih stack' tiles res h h1 (fun t ht => h2 t (List.mem_cons_of_mem _ ht))
          ?_ ?_ h5
        · intro t ht
          obtain ⟨ns, hns, hcl⟩ := h3 t ht
          refine ⟨ns, hns, fun n hn => ?_⟩
          rcases hcl n hn with hm | hm
          · exact Or.inl hm
          · rcases List.mem_cons.1 hm with he | he
            · exact Or.inl (he ▸ hc)
            · exact Or.inr he
        · rcases h4 with hm | hm
          · exact Or.inl hm
          · rcases List.mem_cons.1 hm with he | he
            · exact Or.inl (he ▸ hc)
            · exact Or.inr he
      · rw [if_neg hc] at h
        cases hns : get_neighbours current grid predicate with
        | none =>
          rw [hns] at h
          exact absurd h (by simp)
        | some ns =>
          rw [hns] at h
          have hcur : Reaches grid predicate seed current :=
            h2 current (List.mem_cons_self _ _)
          have hmain := ih _ _ res h ?_ ?_ ?_ ?_ ?_
          · exact ⟨fun t ht => hmain.1 t (List.mem_cons_of_mem _ ht),
              hmain.2.1, hmain.2.2.1, hmain.2.2.2.1, hmain.2.2.2.2⟩
          · intro t ht
            rcases List.mem_cons.1 ht with he | he
            · exact he ▸ hcur
            · exact h1 t he
          · intro t ht
            rcases List.mem_append.1 ht with he | he
            · have : t ∈ ns := List.mem_of_mem_filter (List.mem_reverse.1 he)
              exact Reaches.step hcur hns this
            · exact h2 t (List.mem_cons_of_mem _ he)
          · intro t ht
            rcases List.mem_cons.1 ht with he | he
            · subst he
              refine ⟨ns, hns, fun n hn => ?_⟩
              by_cases hin : n ∈ t :: tiles
              · exact Or.inl hin
              · refine Or.inr (List.mem_append.2 (Or.inl ?_))
                rw [List.mem_reverse, List.mem_filter]
                exact ⟨hn, by simpa using hin⟩
            · obtain ⟨ms, hms, hcl⟩ := h3 t he
              refine ⟨ms, hms, fun n hn => ?_⟩
              rcases hcl n hn with hm | hm
              · exact Or.inl (List.mem_cons_of_mem _ hm)
              · rcases List.mem_cons.1 hm with hcc | hcc
                · exact Or.inl (hcc ▸ List.mem_cons_self _ _)
                · exact Or.inr (List.mem_append.2 (Or.inr hcc))
          · rcases h4 with hm | hm
            · exact Or.inl (List.mem_cons_of_mem _ hm)
            · rcases List.mem_cons.1 hm with he | he
              · exact Or.inl (he ▸ List.mem_cons_self _ _)
              · exact Or.inr (List.mem_append.2 (Or.inr he))
          · exact List.Nodup.cons hc h5

theorem reaches_subset_of_closed [DecidableEq T] (grid : Grid T)
    (predicate : Tile T → Tile T → Bool) (seed : Tile T) (res : List (Tile T))
    (hseed : seed ∈ res)
    (hclosed : ∀ t ∈ res, ∃ ns, get_neighbours t grid predicate = some ns ∧
      ∀ n ∈ ns, n ∈ res) :
    ∀ u, Reaches grid predicate seed u → u ∈ res := by
  intro u hu
  induction hu with
  | refl => exact hseed
  | step hr hns hn ih =>
    rename_i t n ns
    obtain ⟨ms, hms, hcl⟩ := hclosed t ih
    rw [hms] at hns
    cases hns
    exact hcl n hn

/-- Everything `get_region` promises whenever it returns: the region is
exactly the set of tiles reachable from the seed, without duplicates, it
contains the seed, and every member's neighbour query succeeded and stayed
inside the region. -/
theorem get_region_spec [DecidableEq T] (grid : Grid T)
    (predicate : Tile T → Tile T → Bool) (seed : Tile T) (r : Region T)
    (h : get_region seed grid predicate = some r) :
    (∀ t, t ∈ r.tiles ↔ Reaches grid predicate seed t) ∧ r.tiles.Nodup ∧
      seed ∈ r.tiles ∧
      (∀ t ∈ r.tiles, ∃ ns, get_neighbours t grid predicate = some ns ∧
        ∀ n ∈ ns, n ∈ r.tiles) := by
  unfold get_region at h
  rw [Option.map_eq_some'] at h
  obtain ⟨res, hres, hr⟩ := h
  subst hr
  have hmain := floodLoop_sound grid predicate seed _ _ _ _ hres
    (fun t ht => absurd ht (List.not_mem_nil t))
    (fun t ht => by
      rcases List.mem_cons.1 ht with he | he
      · exact he ▸ Reaches.refl
      · exact absurd he (List.not_mem_nil t))
    (fun t ht => absurd ht (List.not_mem_nil t))
    (Or.inr (List.mem_cons_self _ _))
    List.nodup_nil
  refine ⟨fun t => ⟨fun ht => hmain.2.2.1 t ht, fun ht =>
    reaches_subset_of_closed grid predicate seed res hmain.2.2.2.2
      hmain.2.2.2.1 t ht⟩, hmain.2.1, hmain.2.2.2.2, hmain.2.2.2.1⟩

theorem floodLoop_total [DecidableEq T] (grid : Grid T)
    (predicate : Tile T → Tile T → Bool) (hne : grid ≠ [])
    (hr : Rectangular grid) (cands : List (Tile T))
    (hcand : ∀ t ns, get_neighbours t grid predicate = some ns →
      ∀ n ∈ ns, n ∈ cands) :
    ∀ (fuel : Nat) (stack tiles : List (Tile T)),
    (∀ x ∈ stack, x ∈ cands) →
    5 * ((cands.filter (fun t => t ∉ tiles)).length) + stack.length < fuel →
    ∃ res, floodLoop grid predicate fuel stack tiles = some res := by
  intro fuel
  induction fuel with
  | zero =>
    intro stack tiles _ hm
    exact absurd hm (Nat.not_lt_zero _)
  | succ fuel ih =>
    intro stack tiles hstack hm
    cases stack with
    | nil => exact ⟨tiles, rfl⟩
    | cons current stack' =>
      simp only [floodLoop]
      by_cases hc : current ∈ tiles
      · rw [if_pos hc]
        refine ih stack' tiles
          (fun x hx => hstack x (List.mem_cons_of_mem _ hx)) ?_
        simp only [List.length_cons] at hm
        omega
      · rw [if_neg hc]
        obtain ⟨ns, hns⟩ := get_neighbours_total current grid predicate hne hr
        rw [hns]
        have hlt : ((cands.filter (fun t => t ∉ current :: tiles)).length) <
            ((cands.filter (fun t => t ∉ tiles)).length) := by
          refine length_filter_lt_of_mem cands _ _ ?_ current
            (hstack current (List.mem_cons_self _ _)) (by simpa using hc)
            (by simp)
          intro x hx
          simp only [decide_eq_true_eq] at hx ⊢
          exact fun hmem => hx (List.mem_cons_of_mem _ hmem)
        have hlen : ns.length ≤ 4 := get_neighbours_length_le _ _ _ _ hns
        refine ih _ _ ?_ ?_
        · intro x hx
          rcases List.mem_append.1 hx with he | he
          · exact hcand current ns hns x
              (List.mem_of_mem_filter (List.mem_reverse.1 he))
          · exact hstack x (List.mem_cons_of_mem _ he)
        · have hpush : ((ns.filter (fun n => n ∉ current :: tiles)).reverse).length
              ≤ 4 := by
            rw [List.length_reverse]
            exact le_trans (List.length_filter_le _ _) hlen
          simp only [List.length_append, List.length_cons] at hm ⊢
          omega

/-- On a non-empty rectangular grid the flood fill always returns: the fuel
`floodFuel` given to the loop is sufficient. -/
theorem get_region_total [DecidableEq T] (grid : Grid T)
    (predicate : Tile T → Tile T → Bool) (seed : Tile T) (hne : grid ≠ [])
    (hr : Rectangular grid) :
    ∃ r, get_region seed grid predicate = some r := by
  obtain ⟨res, hres⟩ := floodLoop_total grid predicate hne hr
    (seed :: allGridTiles grid)
    (fun t ns hns n hn => List.mem_cons_of_mem _
      (mem_allGridTiles_of_gridTile grid n
        (get_neighbours_gridTile t grid predicate ns hns n hn)))
    (floodFuel seed grid) [seed] []
    (fun x hx => by
      rcases List.mem_cons.1 hx with he | he
      · exact he ▸ List.mem_cons_self _ _
      · exact absurd he (List.not_mem_nil x))
    (by
      unfold floodFuel
      have : ((seed :: allGridTiles grid).filter
          (fun t => t ∉ ([] : List (Tile T)))).length ≤
          (seed :: allGridTiles grid).length := List.length_filter_le _ _
      simp only [List.length_cons, List.length_nil] at this ⊢
      omega)
  exact ⟨⟨res⟩, by rw [get_region, hres]; rfl⟩

theorem reaches_trans (grid : Grid T) (predicate : Tile T → Tile T → Bool)
    {s t u : Tile T} (h1 : Reaches grid predicate s t)
    (h2 : Reaches grid predicate t u) : Reaches grid predicate s u := by
  induction h2 with
  | refl => exact h1
  | step _ hns hn ih => exact Reaches.step ih hns hn

theorem reaches_gridTile (grid : Grid T) (predicate : Tile T → Tile T → Bool)
    {seed t : Tile T} (hseed : GridTile grid seed)
    (h : Reaches grid predicate seed t) : GridTile grid t := by
  induction h with
  | refl => exact hseed
  | step _ hns hn _ => exact get_neighbours_gridTile _ _ _ _ hns _ hn

theorem gridTile_eq_of_coords (grid : Grid T) {a b : Tile T}
    (ha : GridTile grid a) (hb : GridTile grid b) (hi : a.i = b.i)
    (hj : a.j = b.j) : a = b := by
  have hv : some a.value = some b.value := by
    rw [← ha.2.2.2.2, ← hb.2.2.2.2, hi, hj]
  cases a
  cases b
  simp only at hi hj hv
  simp only [Option.some.injEq] at hv
  subst hi
  subst hj
  subst hv
  rfl

theorem mem_coordList_iff (grid : Grid T) (c : Int × Int) :
    c ∈ coordList grid ↔ 0 ≤ c.1 ∧ c.1 < (grid.length : Int) ∧
      0 ≤ c.2 ∧ c.2 < (cols0 grid : Int) := by
  constructor
  · intro h
    rw [coordList, List.mem_flatMap] at h
    obtain ⟨i, hi, h⟩ := h
    rw [List.mem_map] at h
    obtain ⟨j, hj, h⟩ := h
    rw [List.mem_range] at hi
    rw [List.mem_range] at hj
    rw [← h]
    refine ⟨by positivity, ?_, by positivity, ?_⟩ <;> simp only [] <;> omega
  · rintro ⟨h1, h2, h3, h4⟩
    rw [coordList, List.mem_flatMap]
    refine ⟨c.1.toNat, ?_, ?_⟩
    · rw [List.mem_range]
      omega
    rw [List.mem_map]
    refine ⟨c.2.toNat, ?_, ?_⟩
    · rw [List.mem_range]
      omega
    rw [Int.toNat_of_nonneg h1, Int.toNat_of_nonneg h3]

theorem gridTile_iff_coord_mem (grid : Grid T) (t : Tile T) :
    GridTile grid t ↔ (t.i, t.j) ∈ coordList grid ∧
      pyIdx2 grid t.i t.j = some t.value := by
  rw [mem_coordList_iff]
  unfold GridTile
  constructor
  · rintro ⟨h1, h2, h3, h4, h5⟩
    exact ⟨⟨h1, h2, h3, h4⟩, h5⟩
  · rintro ⟨⟨h1, h2, h3, h4⟩, h5⟩
    exact ⟨h1, h2, h3, h4, h5⟩

theorem neg_mem_directions : ∀ d ∈ directions, (-d.1, -d.2) ∈ directions := by
  decide

/-- Inside a region whose members all carry their grid value and all had a
successful neighbour query, a symmetric predicate makes every flood-fill
step reversible, so reachability from the seed can be turned around. -/
theorem reaches_reverse (grid : Grid T) (predicate : Tile T → Tile T → Bool)
    (hsym : ∀ a b, predicate a b = predicate b a) (seed : Tile T)
    (res : List (Tile T))
    (hcomplete : ∀ u, Reaches grid predicate seed u → u ∈ res)
    (hsucc : ∀ t ∈ res, ∃ ns, get_neighbours t grid predicate = some ns)
    (hgt : ∀ t ∈ res, GridTile grid t) :
    ∀ u, Reaches grid predicate seed u → Reaches grid predicate u seed := by
  intro u hu
  induction hu with
  | refl => exact Reaches.refl
  | step hr hns hn ih =>
    rename_i t n ns
    have htmem : t ∈ res := hcomplete t hr
    have hnmem : n ∈ res := hcomplete n (Reaches.step hr hns hn)
    obtain ⟨ms, hms⟩ := hsucc n hnmem
    obtain ⟨d, hd, h1, h2, hgtn, hp⟩ :=
      (get_neighbours_mem_iff t grid predicate ns hns n).1 hn
    have htstep : t ∈ ms := by
      rw [get_neighbours_mem_iff n grid predicate ms hms t]
      refine ⟨(-d.1, -d.2), neg_mem_directions d hd, by simp only []; omega,
        by simp only []; omega, hgt t htmem, ?_⟩
      rw [hsym n t]
      exact hp
    exact reaches_trans grid predicate
      (Reaches.step Reaches.refl hms htstep) ih

theorem get_perimeter_eq_perimCoords (r : Region T) :
    get_perimeter r = perimCoords (r.tiles.map (fun t => (t.i, t.j))) := by
  unfold get_perimeter perimCoords
  rw [List.foldl_map]

theorem foldl_dirs_eval (cs : List (Int × Int)) (c : Int × Int) (p : Nat) :
    directions.foldl
      (fun peri d => if (c.1 + d.1, c.2 + d.2) ∈ cs then peri else peri + 1) p
      = p + cnt cs c := by
  simp only [directions, UP, RIGHT, DOWN, LEFT, List.foldl_cons, List.foldl_nil,
    cnt]
  split_ifs <;> omega

theorem foldl_add_eq_sum {α : Type} (f : α → Nat) :
    ∀ (l : List α) (a : Nat),
    l.foldl (fun acc x => acc + f x) a = a + (l.map f).sum := by
  intro l
  induction l with
  | nil =>
    intro a
    simp
  | cons x l ih =>
    intro a
    rw [List.foldl_cons, ih, List.map_cons, List.sum_cons]
    omega

theorem perimCoords_eq_sum (cs : List (Int × Int)) :
    perimCoords cs = (cs.map (cnt cs)).sum := by
  unfold perimCoords
  have hbody : (fun (peri : Nat) (c : Int × Int) => directions.foldl
      (fun peri d => if (c.1 + d.1, c.2 + d.2) ∈ cs then peri else peri + 1)
        peri) = fun peri c => peri + cnt cs c := by
    funext peri c
    exact foldl_dirs_eval cs c peri
  rw [hbody, foldl_add_eq_sum]
  omega

theorem cnt_congr (cs cs' : List (Int × Int))
    (h : ∀ x : Int × Int, x ∈ cs ↔ x ∈ cs') (c : Int × Int) :
    cnt cs c = cnt cs' c := by
  have e : ∀ y : Int × Int, (y ∈ cs) = (y ∈ cs') := fun y => propext (h y)
  simp only [cnt, e]

theorem perimCoords_perm (cs cs' : List (Int × Int)) (hp : cs.Perm cs') :
    perimCoords cs = perimCoords cs' := by
  rw [perimCoords_eq_sum, perimCoords_eq_sum,
    List.map_congr_left (fun c _ => cnt_congr cs cs' (fun x => hp.mem_iff) c)]
  exact (hp.map (cnt cs')).sum_eq

theorem coordList_nodup (grid : Grid T) : (coordList grid).Nodup := by
  unfold coordList
  rw [List.nodup_flatMap]
  constructor
  · intro i _
    refine List.Nodup.map ?_ (List.nodup_range _)
    intro a b hab
    simpa using hab
  · refine List.Pairwise.imp ?_ (List.pairwise_lt_range _)
    intro i i' hlt x hx hx'
    rw [List.mem_map] at hx hx'
    obtain ⟨j, _, hj⟩ := hx
    obtain ⟨j', _, hj'⟩ := hx'
    rw [← hj] at hj'
    simp only [Prod.mk.injEq] at hj'
    omega

theorem cnt_coordList_eval (grid : Grid T) (i j : Nat) (hi : i < grid.length)
    (hj : j < cols0 grid) :
    cnt (coordList grid) ((i : Int), (j : Int)) =
      (if i = 0 then 1 else 0) + (if j + 1 = cols0 grid then 1 else 0) +
        (if i + 1 = grid.length then 1 else 0) + (if j = 0 then 1 else 0) := by
  simp only [cnt, mem_coordList_iff]
  split_ifs <;> omega

theorem sum_map_const_nat {α : Type} (l : List α) (c : Nat) :
    (l.map (fun _ => c)).sum = l.length * c := by
  induction l with
  | nil => simp
  | cons x l ih =>
    rw [List.map_cons, List.sum_cons, ih, List.length_cons]
    ring

theorem sum_indicator_range (n k c : Nat) (hk : k < n) :
    ((List.range n).map (fun j => if j = k then c else 0)).sum = c := by
  induction n with
  | zero => omega
  | succ n ih =>
    rw [List.range_succ, List.map_append, List.sum_append]
    by_cases hkn : k = n
    · subst hkn
      have hz : ((List.range k).map (fun j => if j = k then c else 0)).sum
          = 0 := by
        apply List.sum_eq_zero
        intro x hx
        rw [List.mem_map] at hx
        obtain ⟨j, hj, hx⟩ := hx
        rw [List.mem_range] at hj
        rw [← hx, if_neg (by omega)]
      rw [hz]
      simp
    · rw [ih (by omega)]
      simp only [List.map_cons, List.map_nil, List.sum_cons, List.sum_nil]
      rw [if_neg (by omega)]
      omega

theorem sum_flatMap_nat {α : Type} (l : List α) (f : α → List Nat) :
    (l.flatMap f).sum = (l.map (fun a => (f a).sum)).sum := by
  induction l with
  | nil => rfl
  | cons x l ih =>
    rw [List.flatMap_cons, List.sum_append, ih, List.map_cons, List.sum_cons]

theorem perimCoords_coordList (grid : Grid T) (hR : 0 < grid.length)
    (hC : 0 < cols0 grid) :
    perimCoords (coordList grid) = 2 * (grid.length + cols0 grid) := by
  rw [perimCoords_eq_sum]
  have hunf : coordList grid = (List.range grid.length).flatMap
      (fun (i : Nat) => (List.range (cols0 grid)).map
        (fun (j : Nat) => ((i : Int), (j : Int)))) := rfl
  nth_rewrite 2 [hunf]
  rw [List.map_flatMap, sum_flatMap_nat]
  simp only [List.map_map, Function.comp_def]
  have hrow : ∀ i ∈ List.range grid.length,
      ((List.range (cols0 grid)).map
        (fun (j : Nat) => cnt (coordList grid) ((i : Int), (j : Int)))).sum =
      (if i = 0 then cols0 grid else 0) +
        (if i + 1 = grid.length then cols0 grid else 0) + 2 := by
    intro i hi
    rw [List.map_congr_left (fun j hj => cnt_coordList_eval grid i j
      (List.mem_range.1 hi) (List.mem_range.1 hj))]
    rw [List.sum_map_add, List.sum_map_add, List.sum_map_add]
    rw [sum_map_const_nat, List.length_range]
    rw [List.map_congr_left (fun (j : Nat) (_ : j ∈ List.range (cols0 grid)) =>
      show (if j + 1 = cols0 grid then 1 else 0)
          = (if j = cols0 grid - 1 then 1 else 0) by split_ifs <;> omega)]
    rw [sum_indicator_range (cols0 grid) (cols0 grid - 1) 1 (by omega)]
    rw [sum_map_const_nat, List.length_range]
    rw [sum_indicator_range (cols0 grid) 0 1 hC]
    split_ifs <;> omega
  rw [List.map_congr_left hrow]
  rw [List.sum_map_add, List.sum_map_add]
  rw [sum_indicator_range grid.length 0 (cols0 grid) hR]
  rw [List.map_congr_left (fun (i : Nat) (_ : i ∈ List.range grid.length) =>
    show (if i + 1 = grid.length then cols0 grid else 0)
        = (if i = grid.length - 1 then cols0 grid else 0) by
      split_ifs <;> omega)]
  rw [sum_indicator_range grid.length (grid.length - 1) (cols0 grid) (by omega)]
  rw [sum_map_const_nat, List.length_range]
  omega

theorem pyIdx2_mem (grid : Grid T) (i j : Int) (w : T)
    (h : pyIdx2 grid i j = some w) (hi : 0 ≤ i) (hj : 0 ≤ j) :
    ∃ row ∈ grid, w ∈ row := by
  unfold pyIdx2 at h
  cases hrow : pyIdx grid i with
  | none =>
    rw [hrow] at h
    exact absurd h (by simp)
  | some row =>
    rw [hrow] at h
    have h' : pyIdx row j = some w := h
    rw [pyIdx_of_nonneg _ _ hi] at hrow
    rw [pyIdx_of_nonneg _ _ hj] at h'
    exact ⟨row, List.get?_mem hrow, List.get?_mem h'⟩

theorem uniform_value (grid : Grid T) (v : T)
    (huni : ∀ row ∈ grid, ∀ x ∈ row, x = v) (i j : Int) (w : T)
    (h : pyIdx2 grid i j = some w) (hi : 0 ≤ i) (hj : 0 ≤ j) : w = v := by
  obtain ⟨row, hrow, hw⟩ := pyIdx2_mem grid i j w h hi hj
  exact huni row hrow w hw

theorem uniform_gridTile (grid : Grid T) (v : T) (hrect : Rectangular grid)
    (huni : ∀ row ∈ grid, ∀ x ∈ row, x = v) (i j : Int) (h1 : 0 ≤ i)
    (h2 : i < (grid.length : Int)) (h3 : 0 ≤ j) (h4 : j < (cols0 grid : Int)) :
    GridTile grid ⟨i, j, v⟩ := by
  obtain ⟨w, hw⟩ := pyIdx2_rect grid hrect i j h1 h2 h3 h4
  have hwv := uniform_value grid v huni i j w hw h1 h3
  subst hwv
  exact ⟨h1, h2, h3, h4, hw⟩

theorem gridTile_value (grid : Grid T) (v : T)
    (huni : ∀ row ∈ grid, ∀ x ∈ row, x = v) (t : Tile T)
    (ht : GridTile grid t) : t.value = v :=
  uniform_value grid v huni t.i t.j t.value ht.2.2.2.2 ht.1 ht.2.2.1

theorem uniform_step (grid : Grid T) (v : T) [DecidableEq T] (hne : grid ≠ [])
    (hrect : Rectangular grid) (huni : ∀ row ∈ grid, ∀ x ∈ row, x = v)
    (a b : Tile T) (ha : GridTile grid a) (hb : GridTile grid b)
    (d : Int × Int) (hd : d ∈ directions) (h1 : b.i = a.i + d.1)
    (h2 : b.j = a.j + d.2) : Reaches grid match_value a b := by
  obtain ⟨ns, hns⟩ := get_neighbours_total a grid match_value hne hrect
  refine Reaches.step Reaches.refl hns ?_
  rw [get_neighbours_mem_iff a grid match_value ns hns b]
  refine ⟨d, hd, h1, h2, hb, ?_⟩
  unfold match_value
  rw [gridTile_value grid v huni a ha, gridTile_value grid v huni b hb]
  simp

theorem uniform_reach_vert (grid : Grid T) (v : T) [DecidableEq T]
    (hne : grid ≠ []) (hrect : Rectangular grid)
    (huni : ∀ row ∈ grid, ∀ x ∈ row, x = v) :
    ∀ (n : Nat) (a : Tile T), GridTile grid a → ∀ i' : Int, 0 ≤ i' →
    i' < (grid.length : Int) → (i' - a.i).natAbs = n →
    Reaches grid match_value a ⟨i', a.j, v⟩ := by
  intro n
  induction n with
  | zero =>
    intro a ha i' _ _ h3
    have hii : i' = a.i := by omega
    subst hii
    have heq : (⟨a.i, a.j, v⟩ : Tile T) = a := by
      rw [← gridTile_value grid v huni a ha]
    rw [heq]
    exact Reaches.refl
  | succ n ih =>
    intro a ha i' h1 h2 h3
    rcases lt_or_gt_of_ne (show i' ≠ a.i by omega) with hlt | hgt
    · have hb : GridTile grid ⟨a.i + -1, a.j, v⟩ :=
        uniform_gridTile grid v hrect huni _ _ (by omega)
          (by have := ha.2.1; omega) ha.2.2.1 ha.2.2.2.1
      refine reaches_trans _ _
        (uniform_step grid v hne hrect huni a _ ha hb UP (by decide) rfl
          ((add_zero a.j).symm)) ?_
      have hrest := ih ⟨a.i + -1, a.j, v⟩ hb i' h1 h2
        (by simp only []; omega)
      exact hrest
    · have hb : GridTile grid ⟨a.i + 1, a.j, v⟩ :=
        uniform_gridTile grid v hrect huni _ _ (by have := ha.1; omega)
          (by omega) ha.2.2.1 ha.2.2.2.1
      refine reaches_trans _ _
        (uniform_step grid v hne hrect huni a _ ha hb DOWN (by decide) rfl
          ((add_zero a.j).symm)) ?_
      have hrest := ih ⟨a.i + 1, a.j, v⟩ hb i' h1 h2
        (by simp only []; omega)
      exact hrest

theorem uniform_reach_horiz (grid : Grid T) (v : T) [DecidableEq T]
    (hne : grid ≠ []) (hrect : Rectangular grid)
    (huni : ∀ row ∈ grid, ∀ x ∈ row, x = v) :
    ∀ (n : Nat) (a : Tile T), GridTile grid a → ∀ j' : Int, 0 ≤ j' →
    j' < (cols0 grid : Int) → (j' - a.j).natAbs = n →
    Reaches grid match_value a ⟨a.i, j', v⟩ := by
  intro n
  induction n with
  | zero =>
    intro a ha j' _ _ h3
    have hjj : j' = a.j := by omega
    subst hjj
    have heq : (⟨a.i, a.j, v⟩ : Tile T) = a := by
      rw [← gridTile_value grid v huni a ha]
    rw [heq]
    exact Reaches.refl
  | succ n ih =>
    intro a ha j' h1 h2 h3
    rcases lt_or_gt_of_ne (show j' ≠ a.j by omega) with hlt | hgt
    · have hb : GridTile grid ⟨a.i, a.j + -1, v⟩ :=
        uniform_gridTile grid v hrect huni _ _ ha.1 ha.2.1 (by omega)
          (by have := ha.2.2.2.1; omega)
      refine reaches_trans _ _
        (uniform_step grid v hne hrect huni a _ ha hb LEFT (by decide)
          ((add_zero a.i).symm) rfl) ?_
      have hrest := ih ⟨a.i, a.j + -1, v⟩ hb j' h1 h2
        (by simp only []; omega)
      exact hrest
    · have hb : GridTile grid ⟨a.i, a.j + 1, v⟩ :=
        uniform_gridTile grid v hrect huni _ _ ha.1 ha.2.1
          (by have := ha.2.2.1; omega) (by omega)
      refine reaches_trans _ _
        (uniform_step grid v hne hrect huni a _ ha hb RIGHT (by decide)
          ((add_zero a.i).symm) rfl) ?_
      have hrest := ih ⟨a.i, a.j + 1, v⟩ hb j' h1 h2
        (by simp only []; omega)
      exact hrest

theorem uniform_reach_all (grid : Grid T) (v : T) [DecidableEq T]
    (hne : grid ≠ []) (hrect : Rectangular grid)
    (huni : ∀ row ∈ grid, ∀ x ∈ row, x = v) (seed t : Tile T)
    (hs : GridTile grid seed) (ht : GridTile grid t) :
    Reaches grid match_value seed t := by
  have hmid : GridTile grid ⟨t.i, seed.j, v⟩ :=
    uniform_gridTile grid v hrect huni _ _ ht.1 ht.2.1 hs.2.2.1 hs.2.2.2.1
  have h1 : Reaches grid match_value seed ⟨t.i, seed.j, v⟩ :=
    uniform_reach_vert grid v hne hrect huni (t.i - seed.i).natAbs seed hs
      t.i ht.1 ht.2.1 rfl
  have h2 : Reaches grid match_value ⟨t.i, seed.j, v⟩ ⟨t.i, t.j, v⟩ :=
    uniform_reach_horiz grid v hne hrect huni (t.j - seed.j).natAbs
      ⟨t.i, seed.j, v⟩ hmid t.j ht.2.2.1 ht.2.2.2.1 rfl
  have heq : (⟨t.i, t.j, v⟩ : Tile T) = t := by
    rw [← gridTile_value grid v huni t ht]
  rw [← heq]
  exact reaches_trans _ _ h1 h2

/-- The loop invariant of `get_all_regions` under a symmetric predicate:
accumulated regions are built by `get_region` from grid seeds, are pairwise
coordinate-disjoint, and the visited set is their accumulated tiles; the
final region list then covers every remaining coordinate, keeps all tiles
on the grid, and stays pairwise disjoint. -/
theorem allRegionsLoop_spec [DecidableEq T] (grid : Grid T)
    (predicate : Tile T → Tile T → Bool)
    (hsym : ∀ a b, predicate a b = predicate b a) :
    ∀ (todo : List (Int × Int)) (regions : List (Region T))
      (visited : List (Tile T)) (rs : List (Region T)),
    allRegionsLoop grid predicate todo regions visited = some rs →
    (∀ c ∈ todo, c ∈ coordList grid) →
    visited = regions.flatMap (fun r => r.tiles) →
    (∀ r ∈ regions, ∃ s, GridTile grid s ∧
      (∀ t, t ∈ r.tiles ↔ Reaches grid predicate s t) ∧
      (∀ t ∈ r.tiles, ∃ ns, get_neighbours t grid predicate = some ns ∧
        ∀ n ∈ ns, n ∈ r.tiles) ∧
      (∀ t ∈ r.tiles, GridTile grid t)) →
    regions.Pairwise (fun r1 r2 => ∀ t1 ∈ r1.tiles, ∀ t2 ∈ r2.tiles,
      (t1.i, t1.j) ≠ (t2.i, t2.j)) →
    (∀ r ∈ regions, r ∈ rs) ∧
      (∀ r ∈ rs, ∀ t ∈ r.tiles, GridTile grid t) ∧
      rs.Pairwise (fun r1 r2 => ∀ t1 ∈ r1.tiles, ∀ t2 ∈ r2.tiles,
        (t1.i, t1.j) ≠ (t2.i, t2.j)) ∧
      (∀ c ∈ todo, ∃ r ∈ rs, ∃ t ∈ r.tiles, t.i = c.1 ∧ t.j = c.2) := by
  intro todo
  induction todo with
  | nil =>
    intro regions visited rs h htodo hvis hspec hdisj
    simp only [allRegionsLoop, Option.some.injEq] at h
    subst h
    refine ⟨fun r hr => hr, ?_, hdisj, fun c hc => absurd hc (List.not_mem_nil c)⟩
    intro r hr t ht
    obtain ⟨s, _, _, _, hgt⟩ := hspec r hr
    exact hgt t ht
  | cons c rest ih =>
    intro regions visited rs h htodo hvis hspec hdisj
    simp only [allRegionsLoop] at h
    split at h
    · exact absurd h (by simp)
    · rename_i v hv
      have hcmem : c ∈ coordList grid := htodo c (List.mem_cons_self _ _)
      have htile : GridTile grid ⟨c.1, c.2, v⟩ := by
        rw [gridTile_iff_coord_mem]
        exact ⟨hcmem, hv⟩
      by_cases hin : (⟨c.1, c.2, v⟩ : Tile T) ∈ visited
      · rw [if_pos hin] at h
        have hmain := ih regions visited rs h
          (fun x hx => htodo x (List.mem_cons_of_mem _ hx)) hvis hspec hdisj
        refine ⟨hmain.1, hmain.2.1, hmain.2.2.1, ?_⟩
        intro c' hc'
        rcases List.mem_cons.1 hc' with he | he
        · subst he
          rw [hvis, List.mem_flatMap] at hin
          obtain ⟨r, hr, htr⟩ := hin
          exact ⟨r, hmain.1 r hr, ⟨c'.1, c'.2, v⟩, htr, rfl, rfl⟩
        · exact hmain.2.2.2 c' he
      · rw [if_neg hin] at h
        split at h
        · exact absurd h (by simp)
        · rename_i region hreg
          obtain ⟨hiff, hnodup, hseedmem, hclosed⟩ :=
            get_region_spec grid predicate _ region hreg
          have hregGT : ∀ t ∈ region.tiles, GridTile grid t := fun t ht =>
            reaches_gridTile grid predicate htile ((hiff t).1 ht)
          have hcross : ∀ r' ∈ regions, ∀ t1 ∈ r'.tiles, ∀ t2 ∈ region.tiles,
              (t1.i, t1.j) ≠ (t2.i, t2.j) := by
            intro r' hr' t1 ht1 t2 ht2 hcoords
            obtain ⟨s', hs'GT, hs'iff, _, hr'GT⟩ := hspec r' hr'
            simp only [Prod.mk.injEq] at hcoords
            have ht12 : t1 = t2 := gridTile_eq_of_coords grid
              (hr'GT t1 ht1) (hregGT t2 ht2) hcoords.1 hcoords.2
            have hrev : Reaches grid predicate t2 ⟨c.1, c.2, v⟩ :=
              reaches_reverse grid predicate hsym _ region.tiles
                (fun u hu => (hiff u).2 hu)
                (fun t ht => (hclosed t ht).imp (fun ns hns => hns.1))
                hregGT t2 ((hiff t2).1 ht2)
            have hseedr' : (⟨c.1, c.2, v⟩ : Tile T) ∈ r'.tiles := by
              rw [hs'iff]
              exact reaches_trans grid predicate
                ((hs'iff t1).1 ht1) (ht12 ▸ hrev)
            apply hin
            rw [hvis, List.mem_flatMap]
            exact ⟨r', hr', hseedr'⟩
          have hmain := ih (regions ++ [region]) (visited ++ region.tiles) rs h
            (fun x hx => htodo x (List.mem_cons_of_mem _ hx))
            (by rw [hvis, List.flatMap_append]; simp)
            ?_ ?_
          · refine ⟨fun r hr => hmain.1 r (List.mem_append.2 (Or.inl hr)),
              hmain.2.1, hmain.2.2.1, ?_⟩
            intro c' hc'
            rcases List.mem_cons.1 hc' with he | he
            · subst he
              exact ⟨region,
                hmain.1 region (List.mem_append.2 (Or.inr (List.mem_singleton.2 rfl))),
                ⟨c'.1, c'.2, v⟩, hseedmem, rfl, rfl⟩
            · exact hmain.2.2.2 c' he
          · intro r hr
            rcases List.mem_append.1 hr with he | he
            · exact hspec r he
            · rw [List.mem_singleton.1 he]
              exact ⟨⟨c.1, c.2, v⟩, htile, hiff,
                fun t ht => hclosed t ht, hregGT⟩
          · rw [List.pairwise_append]
            refine ⟨hdisj, List.pairwise_singleton _ _, ?_⟩
            intro r1 hr1 r2 hr2
            rw [List.mem_singleton.1 hr2]
            exact hcross r1 hr1

end Lemmas

section Claims

variable {T : Type}

/-- Claim C7: for every direction `d` (any pair of integers),
`turn_left (turn_right d) = d`, and applying `turn_right` four times in
succession returns `d`. -/
theorem claim_C7_rotation_laws (d : Int × Int) :
    turn_left (turn_right d) = d ∧
      turn_right (turn_right (turn_right (turn_right d))) = d := by
  constructor <;> simp [turn_left, turn_right]

/-- Claim C6: `can_see` returns true exactly on the integer cross-product
collinearity condition with the two zero-direction guards, is always true
when viewpoint and target coincide, and the three quoted examples evaluate
as stated. -/
theorem claim_C6_can_see :
    (∀ viewpoint target direction : Int × Int,
        can_see viewpoint target direction = true ↔
          ((direction.1 = 0 → target.1 - viewpoint.1 = 0) ∧
           (direction.2 = 0 → target.2 - viewpoint.2 = 0) ∧
           (target.1 - viewpoint.1) * direction.2 =
             (target.2 - viewpoint.2) * direction.1)) ∧
      (∀ v d : Int × Int, can_see v v d = true) ∧
      can_see (0, 0) (3, 0) (1, 0) = true ∧
      can_see (0, 0) (3, 1) (1, 0) = false ∧
      can_see (0, 0) (2, 2) (1, 1) = true := by
  have hmain : ∀ viewpoint target direction : Int × Int,
      can_see viewpoint target direction = true ↔
        ((direction.1 = 0 → target.1 - viewpoint.1 = 0) ∧
         (direction.2 = 0 → target.2 - viewpoint.2 = 0) ∧
         (target.1 - viewpoint.1) * direction.2 =
           (target.2 - viewpoint.2) * direction.1) := by
    intro v t d
    show (if d.1 = 0 ∧ t.1 - v.1 ≠ 0 then false
        else if d.2 = 0 ∧ t.2 - v.2 ≠ 0 then false
        else decide ((t.1 - v.1) * d.2 = (t.2 - v.2) * d.1)) = true ↔ _
    by_cases h1 : d.1 = 0 ∧ t.1 - v.1 ≠ 0
    · rw [if_pos h1]
      simp only [Bool.false_eq_true, false_iff]
      rintro ⟨ha, _, _⟩
      exact h1.2 (ha h1.1)
    · rw [if_neg h1]
      by_cases h2 : d.2 = 0 ∧ t.2 - v.2 ≠ 0
      · rw [if_pos h2]
        simp only [Bool.false_eq_true, false_iff]
        rintro ⟨_, hb, _⟩
        exact h2.2 (hb h2.1)
      · rw [if_neg h2, decide_eq_true_eq]
        push_neg at h1 h2
        constructor
        · intro hc
          exact ⟨fun hz => h1 hz, fun hz => h2 hz, hc⟩
        · rintro ⟨-, -, hc⟩
          exact hc
  refine ⟨hmain, ?_, by decide, by decide, by decide⟩
  intro v d
  rw [hmain]
  refine ⟨fun _ => by omega, fun _ => by omega, by ring⟩

/-- Claim C10: `get_perimeter` depends only on the coordinates of a
region's tiles, never on their values: two regions (even over different
value types) whose tile lists carry identical coordinates position by
position get the same perimeter. -/
theorem claim_C10_perimeter_noninterference (U V : Type) (r1 : Region U)
    (r2 : Region V)
    (h : r1.tiles.map (fun t => (t.i, t.j)) =
      r2.tiles.map (fun t => (t.i, t.j))) :
    get_perimeter r1 = get_perimeter r2 := by
  rw [get_perimeter_eq_perimCoords, get_perimeter_eq_perimCoords, h]

/-- Witness for C10 at a concrete pair of regions: same coordinates, one
holding a number and the other a character. -/
theorem claim_C10_witness :
    (Region.mk [⟨0, 0, (5 : Nat)⟩, ⟨0, 1, 7⟩]).tiles.map
        (fun t => (t.i, t.j)) =
      (Region.mk [⟨0, 0, 'x'⟩, ⟨0, 1, 'y'⟩]).tiles.map
        (fun t => (t.i, t.j)) ∧
    get_perimeter (Region.mk [⟨0, 0, (5 : Nat)⟩, ⟨0, 1, 7⟩]) =
      get_perimeter (Region.mk [⟨0, 0, 'x'⟩, ⟨0, 1, 'y'⟩]) :=
  ⟨by rfl, claim_C10_perimeter_noninterference Nat Char _ _ (by rfl)⟩

/-- Claim C8: on a non-empty rectangular grid `shape` succeeds, and for
every in-bounds tile the whole of `get_neighbours` runs without any grid
access faulting (the `none` branch of the indexing is unreachable), while
on a zero-row grid `shape` faults. -/
theorem claim_C8_safety (grid : Grid T) (hne : grid ≠ [])
    (hrect : Rectangular grid) :
    (shape grid).isSome = true ∧
      (∀ (t : Tile T) (predicate : Tile T → Tile T → Bool),
        0 ≤ t.i → t.i < (grid.length : Int) → 0 ≤ t.j →
        t.j < (cols0 grid : Int) →
        (get_neighbours t grid predicate).isSome = true) ∧
      shape ([] : Grid T) = none := by
  refine ⟨?_, ?_, shape_nil⟩
  · rw [shape_of_ne_nil grid hne]
    rfl
  · intro t predicate _ _ _ _
    obtain ⟨ns, hns⟩ := get_neighbours_total t grid predicate hne hrect
    rw [hns]
    rfl

/-- Witness for C8 on a concrete 1×2 grid. -/
theorem claim_C8_witness :
    (shape [[0, 1]]).isSome = true ∧
      (∀ (t : Tile Nat) (predicate : Tile Nat → Tile Nat → Bool),
        0 ≤ t.i → t.i < ((([[0, 1]] : Grid Nat)).length : Int) → 0 ≤ t.j →
        t.j < (cols0 ([[0, 1]] : Grid Nat) : Int) →
        (get_neighbours t [[0, 1]] predicate).isSome = true) ∧
      shape ([] : Grid Nat) = none :=
  claim_C8_safety [[0, 1]] (by decide) (by decide)

/-- Claim C4: on a non-empty rectangular grid, for an in-bounds tile,
`get_neighbours` returns at most 4 tiles, each one axis-aligned unit step
away carrying the grid value at its coordinates, and the result is the
fixed up, right, down, left candidate order restricted to in-bounds
candidates and filtered by the predicate. -/
theorem claim_C4_neighbours (grid : Grid T)
    (predicate : Tile T → Tile T → Bool) (t : Tile T) (hne : grid ≠ [])
    (hrect : Rectangular grid)
    (_hb : 0 ≤ t.i ∧ t.i < (grid.length : Int) ∧ 0 ≤ t.j ∧
      t.j < (cols0 grid : Int)) :
    ∃ ns, get_neighbours t grid predicate = some ns ∧ ns.length ≤ 4 ∧
      (∀ n ∈ ns, (n.i - t.i).natAbs + (n.j - t.j).natAbs = 1 ∧
        pyIdx2 grid n.i n.j = some n.value) ∧
      ns = (boundedCandidates t grid).filter (fun n => predicate t n) := by
  obtain ⟨ns, hns⟩ := get_neighbours_total t grid predicate hne hrect
  refine ⟨ns, hns, get_neighbours_length_le _ _ _ _ hns, ?_,
    get_neighbours_order _ _ _ _ hns⟩
  intro n hn
  obtain ⟨d, hd, h1, h2, hgt, _⟩ :=
    (get_neighbours_mem_iff t grid predicate ns hns n).1 hn
  refine ⟨?_, hgt.2.2.2.2⟩
  fin_cases hd <;> simp only [UP, RIGHT, DOWN, LEFT] at h1 h2 <;> omega

/-- Witness for C4 on a concrete 2×2 grid with the always-true predicate. -/
theorem claim_C4_witness :
    ∃ ns, get_neighbours (⟨0, 0, 10⟩ : Tile Nat) [[10, 11], [12, 13]]
        match_always = some ns ∧
      ns.length ≤ 4 ∧
      (∀ n ∈ ns, (n.i - (0 : Int)).natAbs + (n.j - (0 : Int)).natAbs = 1 ∧
        pyIdx2 [[10, 11], [12, 13]] n.i n.j = some n.value) ∧
      ns = (boundedCandidates ⟨0, 0, 10⟩ [[10, 11], [12, 13]]).filter
        (fun n => match_always (⟨0, 0, 10⟩ : Tile Nat) n) :=
  claim_C4_neighbours [[10, 11], [12, 13]] match_always ⟨0, 0, 10⟩
    (by decide) (by decide) (by decide)

/-- Claim C2: on a non-empty rectangular grid, from a seed genuinely taken
from the grid, `get_region` succeeds and returns exactly the tiles
reachable from the seed through `get_neighbours` chains under the given
predicate, with no duplicate coordinates. -/
theorem claim_C2_region_is_reachable_set [DecidableEq T] (grid : Grid T)
    (predicate : Tile T → Tile T → Bool) (seed : Tile T) (hne : grid ≠ [])
    (hrect : Rectangular grid) (hseed : GridTile grid seed) :
    ∃ r, get_region seed grid predicate = some r ∧
      (∀ t, t ∈ r.tiles ↔ Reaches grid predicate seed t) ∧
      (r.tiles.map (fun t => (t.i, t.j))).Nodup := by
  obtain ⟨r, hr⟩ := get_region_total grid predicate seed hne hrect
  obtain ⟨hiff, hnodup, _, _⟩ := get_region_spec grid predicate seed r hr
  refine ⟨r, hr, hiff, ?_⟩
  refine List.Nodup.map_on ?_ hnodup
  intro x hx y hy hxy
  simp only [Prod.mk.injEq] at hxy
  exact gridTile_eq_of_coords grid
    (reaches_gridTile grid predicate hseed ((hiff x).1 hx))
    (reaches_gridTile grid predicate hseed ((hiff y).1 hy)) hxy.1 hxy.2

/-- Witness for C2 on a concrete 1×2 grid. -/
theorem claim_C2_witness :
    ∃ r, get_region (⟨0, 0, 3⟩ : Tile Nat) [[3, 4]] match_value = some r ∧
      (∀ t, t ∈ r.tiles ↔ Reaches [[3, 4]] match_value ⟨0, 0, 3⟩ t) ∧
      (r.tiles.map (fun t => (t.i, t.j))).Nodup :=
  claim_C2_region_is_reachable_set [[3, 4]] match_value ⟨0, 0, 3⟩
    (by decide) (by decide) (by decide)

/-- Claim C9: whenever `get_region` returns a region it contains the seed
tile itself, and if the whole neighbour query of the seed comes back empty
(the predicate rejects every candidate) the region is exactly the
one-element list holding the seed — no assumption that the seed's value
matches the grid. -/
theorem claim_C9_region_contains_seed [DecidableEq T] (grid : Grid T)
    (predicate : Tile T → Tile T → Bool) (seed : Tile T) :
    (∀ r, get_region seed grid predicate = some r → seed ∈ r.tiles) ∧
      (get_neighbours seed grid predicate = some [] →
        get_region seed grid predicate = some ⟨[seed]⟩) := by
  constructor
  · intro r hr
    exact (get_region_spec grid predicate seed r hr).2.2.1
  · intro hns
    obtain ⟨m, hm⟩ : ∃ m, floodFuel seed grid = m + 2 :=
      ⟨5 * (seed :: allGridTiles grid).length, rfl⟩
    unfold get_region
    rw [hm]
    show (floodLoop grid predicate (m + 2) [seed] []).map Region.mk =
      some ⟨[seed]⟩
    simp only [floodLoop]
    rw [if_neg (List.not_mem_nil seed), hns]
    rfl

/-- Witness for C9: a seed whose value field (5) disagrees with the grid
value (0) and a predicate rejecting everything still yields the singleton
region of the seed. -/
theorem claim_C9_witness :
    get_region (⟨0, 0, 5⟩ : Tile Nat) [[0]] (fun _ _ => false) =
      some ⟨[⟨0, 0, 5⟩]⟩ :=
  (claim_C9_region_contains_seed [[0]] (fun _ _ => false) ⟨0, 0, 5⟩).2 (by rfl)

/-- Claim C5: on a non-empty rectangular grid whose cells all hold the same
value, `get_region` with the value-equality predicate from any grid tile
succeeds, the region contains exactly the cells of the grid, and its
perimeter is `2 * (rowCount + colCount)`. -/
theorem claim_C5_uniform_grid [DecidableEq T] (grid : Grid T) (v : T)
    (hne : grid ≠ []) (hrect : Rectangular grid)
    (huni : ∀ row ∈ grid, ∀ x ∈ row, x = v) (seed : Tile T)
    (hseed : GridTile grid seed) :
    ∃ r, get_region seed grid match_value = some r ∧
      (∀ t, t ∈ r.tiles ↔ GridTile grid t) ∧
      get_perimeter r = 2 * (grid.length + cols0 grid) := by
  obtain ⟨r, hr⟩ := get_region_total grid match_value seed hne hrect
  obtain ⟨hiff, hnodup, _, _⟩ := get_region_spec grid match_value seed r hr
  have hiff' : ∀ t, t ∈ r.tiles ↔ GridTile grid t := by
    intro t
    rw [hiff t]
    constructor
    · exact fun h => reaches_gridTile grid match_value hseed h
    · exact fun h => uniform_reach_all grid v hne hrect huni seed t hseed h
  refine ⟨r, hr, hiff', ?_⟩
  rw [get_perimeter_eq_perimCoords]
  have hnodupc : (r.tiles.map (fun t => (t.i, t.j))).Nodup := by
    refine List.Nodup.map_on ?_ hnodup
    intro x hx y hy hxy
    simp only [Prod.mk.injEq] at hxy
    exact gridTile_eq_of_coords grid ((hiff' x).1 hx) ((hiff' y).1 hy)
      hxy.1 hxy.2
  have hmemc : ∀ c : Int × Int,
      c ∈ r.tiles.map (fun t => (t.i, t.j)) ↔ c ∈ coordList grid := by
    intro c
    rw [List.mem_map]
    constructor
    · rintro ⟨t, ht, hc⟩
      rw [← hc]
      exact ((gridTile_iff_coord_mem grid t).1 ((hiff' t).1 ht)).1
    · intro hc
      obtain ⟨hb1, hb2, hb3, hb4⟩ := (mem_coordList_iff grid c).1 hc
      exact ⟨⟨c.1, c.2, v⟩, (hiff' _).2
        (uniform_gridTile grid v hrect huni c.1 c.2 hb1 hb2 hb3 hb4), rfl⟩
  have hperm : (r.tiles.map (fun t => (t.i, t.j))).Perm (coordList grid) :=
    (List.perm_ext_iff_of_nodup hnodupc (coordList_nodup grid)).2 hmemc
  rw [perimCoords_perm _ _ hperm]
  exact perimCoords_coordList grid (List.length_pos.2 hne)
    (by have h1 := hseed.2.2.1; have h2 := hseed.2.2.2.1; omega)

/-- Witness for C5 on the uniform 2×2 grid of sevens, seeded from the
bottom-left cell: the perimeter comes out as `2 * (2 + 2) = 8`. -/
theorem claim_C5_witness :
    ∃ r, get_region (⟨1, 0, 7⟩ : Tile Nat) [[7, 7], [7, 7]] match_value
        = some r ∧
      (∀ t, t ∈ r.tiles ↔ GridTile [[7, 7], [7, 7]] t) ∧
      get_perimeter r = 2 * (([[7, 7], [7, 7]] : Grid Nat).length +
        cols0 ([[7, 7], [7, 7]] : Grid Nat)) :=
  claim_C5_uniform_grid [[7, 7], [7, 7]] 7 (by decide) (by decide)
    (by decide) ⟨1, 0, 7⟩ (by decide)

/-- Claim C1 (amended): for every grid and every symmetric match predicate,
whenever `get_all_regions` returns, the returned regions are pairwise
coordinate-disjoint and their tiles cover exactly the coordinates of the
grid — every coordinate lies in some returned region, and only grid
coordinates do. -/
theorem claim_C1_partition_symmetric [DecidableEq T] (grid : Grid T)
    (predicate : Tile T → Tile T → Bool)
    (hsym : ∀ a b, predicate a b = predicate b a) (rs : List (Region T))
    (h : get_all_regions grid predicate = some rs) :
    rs.Pairwise (fun r1 r2 => ∀ t1 ∈ r1.tiles, ∀ t2 ∈ r2.tiles,
      (t1.i, t1.j) ≠ (t2.i, t2.j)) ∧
    (∀ c : Int × Int, c ∈ coordList grid ↔
      ∃ r ∈ rs, ∃ t ∈ r.tiles, t.i = c.1 ∧ t.j = c.2) := by
  unfold get_all_regions at h
  have hmain := allRegionsLoop_spec grid predicate hsym (coordList grid) [] []
    rs h (fun c hc => hc) rfl
    (fun r hr => absurd hr (List.not_mem_nil r)) List.Pairwise.nil
  refine ⟨hmain.2.2.1, fun c => ⟨hmain.2.2.2 c, ?_⟩⟩
  rintro ⟨r, hr, t, ht, h1, h2⟩
  have hgt := hmain.2.1 r hr t ht
  have hmem := ((gridTile_iff_coord_mem grid t).1 hgt).1
  have hc : c = (t.i, t.j) := by
    rw [Prod.ext_iff]
    exact ⟨h1.symm, h2.symm⟩
  rw [hc]
  exact hmem

/-- Witness for the amended C1 on the concrete grid `[[0, 0]]` with the
(symmetric) value-equality predicate. -/
theorem claim_C1_witness :
    ([⟨[⟨0, 1, 0⟩, ⟨0, 0, 0⟩]⟩] : List (Region Nat)).Pairwise
        (fun r1 r2 => ∀ t1 ∈ r1.tiles, ∀ t2 ∈ r2.tiles,
          (t1.i, t1.j) ≠ (t2.i, t2.j)) ∧
      (∀ c : Int × Int, c ∈ coordList ([[0, 0]] : Grid Nat) ↔
        ∃ r ∈ ([⟨[⟨0, 1, 0⟩, ⟨0, 0, 0⟩]⟩] : List (Region Nat)),
          ∃ t ∈ r.tiles, t.i = c.1 ∧ t.j = c.2) :=
  claim_C1_partition_symmetric [[0, 0]] match_value
    (fun a b => decide_eq_decide.mpr ⟨Eq.symm, Eq.symm⟩) _ (by rfl)

/-- Counterexample to claim C3 as stated: on the `"AAA"/"ABA"/"AAA"` grid
the code's boundary-edge count gives the ring-shaped A-region perimeter 16
(outer boundary 12 plus the inner hole boundary 4), not the claimed 8. -/
theorem claim_C3_counterexample :
    get_all_regions gAAA match_value = some [regionA, regionB] ∧
      regionA.tiles.map (fun t => t.value) = List.replicate 8 'A' ∧
      get_perimeter regionA = 16 ∧ (16 : Nat) ≠ 8 := by
  refine ⟨by rfl, by rfl, by rfl, by decide⟩

/-- Claim C3 (amended): on the grid built from `"AAA"`, `"ABA"`, `"AAA"`,
`get_all_regions` with the value-equality predicate yields exactly two
regions — the eight `'A'` tiles and the single `'B'` tile — and
`get_perimeter` returns 16 for the A-region and 4 for the B-region. -/
theorem claim_C3_amended_scenario :
    get_all_regions gAAA match_value = some [regionA, regionB] ∧
      regionA.tiles.length = 8 ∧
      regionA.tiles.map (fun t => t.value) = List.replicate 8 'A' ∧
      regionA.tiles.Perm [⟨0, 0, 'A'⟩, ⟨0, 1, 'A'⟩, ⟨0, 2, 'A'⟩, ⟨1, 0, 'A'⟩,
        ⟨1, 2, 'A'⟩, ⟨2, 0, 'A'⟩, ⟨2, 1, 'A'⟩, ⟨2, 2, 'A'⟩] ∧
      regionB.tiles = [⟨1, 1, 'B'⟩] ∧
      get_perimeter regionA = 16 ∧ get_perimeter regionB = 4 := by
  refine ⟨by rfl, by rfl, by rfl, by decide, by rfl, by rfl, by rfl⟩

/-- Counterexample to claim C1 as stated: with a predicate that is not
symmetric (a step is allowed exactly onto value 1), the two regions
returned for the grid `[[0, 1, 2]]` both contain the tile `(0, 1, 1)`, so
the returned regions are not pairwise disjoint and the middle coordinate is
covered twice. -/
theorem claim_C1_counterexample :
    get_all_regions gBad predBad =
        some [⟨[⟨0, 1, 1⟩, ⟨0, 0, 0⟩]⟩, ⟨[⟨0, 1, 1⟩, ⟨0, 2, 2⟩]⟩] ∧
      (⟨0, 1, 1⟩ : Tile Nat) ∈ ([⟨0, 1, 1⟩, ⟨0, 0, 0⟩] : List (Tile Nat)) ∧
      (⟨0, 1, 1⟩ : Tile Nat) ∈ ([⟨0, 1, 1⟩, ⟨0, 2, 2⟩] : List (Tile Nat)) := by
  refine ⟨by rfl, by decide, by decide⟩

end Claims

end AocGrid
